import Mathlib

/-!
Shallow embedding of the ShadowFight session engine (SessionManager,
technique-selection strategies, and the announcement loop of app.ts),
with theorems checking the natural-language specification against it.

Sources embedded:
* `SessionManager` (session state machine, countdown timer, audio-failure
  counter, persistence) — `src/managers/SessionManager.ts`;
* the three `ITechniqueSelectionStrategy` implementations —
  `src/utils/TechniqueSelectionStrategy.ts`;
* `startTechniqueAnnouncementLoop` — `src/app.ts`;
* numeric limits — `src/constants/limits.ts`.

JavaScript numbers are modelled as `Int` (timer / counter arithmetic is
integral in the source) and as `ℚ` where the source multiplies by
`Math.random()` (technique weights, random cursors).  Timers (`setInterval`
/ `setTimeout` handles) are modelled as armed-flags: a timer callback can
only fire while its flag is set, and `clearInterval`/`clearTimeout`
corresponds to clearing the flag.  `localStorage` is modelled as an
optional stored snapshot carried in the state.
-/

namespace ShadowFight

/-! ### Constants (src/constants/limits.ts) -/

def MAX_CONSECUTIVE_AUDIO_FAILURES : Nat := 3

def SESSION_RESTORE_TIME_LIMIT : Int := 5 * 60 * 1000

def SESSION_SAVE_INTERVAL : Int := 30

/-! ### Data model (src/types/index.ts) -/

/-- Technique record.  `category` and `priority` are strings at runtime
(the TypeScript union types are not enforced on data read back from
`localStorage` / imported JSON); `weight` is a JS number, modelled as `ℚ`. -/
structure Technique where
  name : String
  file : String
  category : String
  priority : String
  selected : Bool
  weight : ℚ
deriving DecidableEq, Repr

/-- SessionConfig value object (duration minutes, delay seconds, volume,
technique pool). -/
structure SessionConfig where
  duration : Int
  delay : Int
  volume : Int
  techniques : List Technique
deriving DecidableEq, Repr

/-- Aggregate session statistics; `techniquesByCategory` is the object
keyed by the seven category names, modelled as an association list. -/
structure SessionStats where
  totalTechniques : Nat
  techniquesByCategory : List (String × Nat)
  sessionDuration : Int
deriving DecidableEq, Repr

/-- Initial statistics object, as built in the `SessionManager` field
initialiser and in `resetSessionStats`. -/
def initialSessionStats : SessionStats :=
  { totalTechniques := 0
    techniquesByCategory :=
      [("Punches", 0), ("Strikes", 0), ("Kicks", 0), ("Knees", 0),
       ("Defenses/Grabs", 0), ("Weapons", 0), ("Hand-Grip", 0)]
    sessionDuration := 0 }

/-- Snapshot persisted by `saveSessionState` (the object written to
`localStorage` under the session-state key, including `timestamp`). -/
structure SessionSnapshot where
  isActive : Bool
  isPaused : Bool
  remainingTime : Int
  sessionDuration : Int
  techniquesUsed : Nat
  sessionStats : SessionStats
  currentFightList : Option String
  timestamp : Int
deriving DecidableEq, Repr

/-- In-memory state of a `SessionManager` instance.  `sessionTimer` and
`techniqueTimer` are the armed-flags of the `setInterval` / `setTimeout`
handles; `savedSnapshot` is the `localStorage` slot; `completionsFired`
counts invocations of the `onSessionComplete` callback. -/
structure SessionState where
  isActive : Bool
  isPaused : Bool
  sessionTimer : Bool
  techniqueTimer : Bool
  remainingTime : Int
  sessionDuration : Int
  currentTechnique : Option Technique
  techniquesUsed : Nat
  currentFightList : Option String
  sessionStats : SessionStats
  consecutiveAudioFailures : Nat
  savedSnapshot : Option SessionSnapshot
  completionsFired : Nat
deriving DecidableEq, Repr

/-- Errors thrown by the session engine (ERROR_MESSAGES constants). -/
inductive SessionError where
  | sessionAlreadyActive
  | noTechniquesAvailable
deriving DecidableEq, Repr

/-! ### SessionManager operations (src/managers/SessionManager.ts) -/

/-- Method `updateSessionStats`: increments the total and the counter of
the technique's category. -/
def updateSessionStats (technique : Technique) (stats : SessionStats) :
    SessionStats :=
  { stats with
    totalTechniques := stats.totalTechniques + 1
    techniquesByCategory := stats.techniquesByCategory.map fun p =>
      if p.1 = technique.category then (p.1, p.2 + 1) else p }

/-- Method `saveSessionState`: serialises the state fields plus a
timestamp into the storage slot. -/
def saveSessionState (s : SessionState) (now : Int) : SessionState :=
  { s with savedSnapshot := some
             { isActive := s.isActive
               isPaused := s.isPaused
               remainingTime := s.remainingTime
               sessionDuration := s.sessionDuration
               techniquesUsed := s.techniquesUsed
               sessionStats := s.sessionStats
               currentFightList := s.currentFightList
               timestamp := now } }

/-- Method `resetAudioFailureCount`. -/
def resetAudioFailureCount (s : SessionState) : SessionState :=
  { s with consecutiveAudioFailures := 0 }

/-- Method `incrementAudioFailureCount` (defined in the source, but —
see `announceLoopIteration` — its only call site is commented out). -/
def incrementAudioFailureCount (s : SessionState) : SessionState :=
  { s with consecutiveAudioFailures := s.consecutiveAudioFailures + 1 }

/-- Method `shouldStopSessionDueToAudioFailures`. -/
def shouldStopSessionDueToAudioFailures (s : SessionState) : Bool :=
  s.consecutiveAudioFailures ≥ MAX_CONSECUTIVE_AUDIO_FAILURES

/-- Method `announceTechnique`: records the current technique, bumps the
usage counter and statistics, and arms the technique `setTimeout`. -/
def announceTechnique (technique : Technique) (s : SessionState) :
    SessionState :=
  { s with
    currentTechnique := some technique
    techniquesUsed := s.techniquesUsed + 1
    sessionStats := updateSessionStats technique s.sessionStats
    techniqueTimer := true }

/-- Method `scheduleNextTechnique`: returns silently unless the session
is active and unpaused and the pool filtered to `selected` is non-empty;
otherwise delegates to the selection strategy (abstract here, per the
`ITechniqueSelectionStrategy` interface) and announces. -/
def scheduleNextTechnique (strat : List Technique → Option Technique)
    (config : SessionConfig) (s : SessionState) : SessionState :=
  if !s.isActive || s.isPaused then s
  else
    let selectedTechniques := config.techniques.filter (·.selected)
    if selectedTechniques.length = 0 then s
    else
      match strat selectedTechniques with
      | some technique => announceTechnique technique s
      | none => s

/-- Method `resetSessionStats`. -/
def resetSessionStats (s : SessionState) : SessionState :=
  { s with sessionStats := initialSessionStats }

/-- Method `startSession`, in imperative style: the pair is the state of
the `SessionManager` after the call together with the thrown error, if
any.  The `AlreadyActiveError` throw happens before any mutation, so on
error the state is returned untouched. -/
def startSessionM (strat : List Technique → Option Technique)
    (s : SessionState) (config : SessionConfig) (now : Int) :
    SessionState × Option SessionError :=
  if s.isActive then (s, some .sessionAlreadyActive)
  else
    let s1 := { s with
      isActive := true
      isPaused := false
      remainingTime := config.duration * 60
      sessionDuration := config.duration * 60
      techniquesUsed := 0
      currentTechnique := none }
    let s2 := resetAudioFailureCount (resetSessionStats s1)
    let s3 := saveSessionState s2 now
    let s4 := { s3 with sessionTimer := true }
    (scheduleNextTechnique strat config s4, none)

/-- Method `pauseSession`: no-op when inactive; otherwise freezes both
timers without touching the remaining time or statistics. -/
def pauseSession (s : SessionState) : SessionState :=
  if !s.isActive then s
  else { s with isPaused := true, sessionTimer := false, techniqueTimer := false }

/-- Method `resumeSession`: no-op unless active and paused; otherwise
clears the pause flag and re-arms only the countdown interval. -/
def resumeSession (s : SessionState) : SessionState :=
  if !s.isActive || !s.isPaused then s
  else { s with isPaused := false, sessionTimer := true }

/-- Method `clearSessionState`: removes the stored snapshot. -/
def clearSessionState (s : SessionState) : SessionState :=
  { s with savedSnapshot := none }

/-- Method `stopSession`: deactivates, cancels both timers, clears the
current technique and fight-list linkage, and clears the snapshot. -/
def stopSession (s : SessionState) : SessionState :=
  clearSessionState { s with
    isActive := false
    isPaused := false
    sessionTimer := false
    techniqueTimer := false
    currentTechnique := none
    currentFightList := none }

/-- Method `completeSession`: computes the final session duration as
total minus remaining, stops the session, and fires the
`onSessionComplete` callback (counted in `completionsFired`). -/
def completeSession (s : SessionState) : SessionState :=
  let s1 := { s with sessionStats :=
    { s.sessionStats with sessionDuration := s.sessionDuration - s.remainingTime } }
  let s2 := stopSession s1
  { s2 with completionsFired := s2.completionsFired + 1 }

/-- Body of the `setInterval` callback installed by `startSessionTimer`:
decrement while positive (saving every 30 remaining seconds), complete at
zero. -/
def sessionTickBody (s : SessionState) (now : Int) : SessionState :=
  if s.remainingTime > 0 then
    let s1 := { s with remainingTime := s.remainingTime - 1 }
    if s1.remainingTime % SESSION_SAVE_INTERVAL = 0 then saveSessionState s1 now
    else s1
  else completeSession s

/-- One countdown tick: the interval callback fires only while the
interval is armed (`clearInterval` cancels pending ticks). -/
def sessionTick (s : SessionState) (now : Int) : SessionState :=
  if s.sessionTimer then sessionTickBody s now else s

/-- Method `isReadyToStart`: the read-only caller-side predicate. -/
def isReadyToStart (config : SessionConfig) : Bool :=
  (config.techniques.filter (·.selected)).length > 0

/-- Method `loadSessionState`: reads the stored snapshot and restores the
in-memory fields when the snapshot is younger than the restore limit;
returns the restored-flag alongside the state. -/
def loadSessionState (s : SessionState) (now : Int) :
    SessionState × Bool :=
  match s.savedSnapshot with
  | none => (s, false)
  | some st =>
    if now - st.timestamp < SESSION_RESTORE_TIME_LIMIT then
      ({ s with
          isActive := st.isActive
          isPaused := st.isPaused
          remainingTime := st.remainingTime
          sessionDuration := st.sessionDuration
          techniquesUsed := st.techniquesUsed
          sessionStats := st.sessionStats
          currentFightList := st.currentFightList }, true)
    else (s, false)

/-! ### Selection strategies (src/utils/TechniqueSelectionStrategy.ts)

Each strategy's `Math.random()` draw is passed in explicitly as a rational
`rand` (the host guarantees `0 ≤ rand < 1`).  A JavaScript out-of-bounds
array access yields `undefined`, modelled as `none`; throwing on an empty
pool is modelled with `Except`. -/

/-- Loop of `RandomTechniqueSelectionStrategy.selectTechnique`: subtract
weights in pool order, returning the technique at which the cursor goes
non-positive, or `none` if it never does. -/
def weightedPick : ℚ → List Technique → Option Technique
  | _, [] => none
  | r, t :: ts =>
    if r - t.weight ≤ 0 then some t else weightedPick (r - t.weight) ts

/-- Total weight of a pool, as accumulated by the `reduce` call. -/
def totalWeight (techniques : List Technique) : ℚ :=
  techniques.foldl (fun sum t => sum + t.weight) 0

/-- Method `RandomTechniqueSelectionStrategy.selectTechnique`: throws on
an empty pool; otherwise draws a cursor `rand * totalWeight`, walks the
pool subtracting weights, and falls back to the first element. -/
def selectTechniqueRandom (techniques : List Technique) (rand : ℚ) :
    Except SessionError Technique :=
  match techniques with
  | [] => .error .noTechniquesAvailable
  | t0 :: _ =>
    match weightedPick (rand * totalWeight techniques) techniques with
    | some t => .ok t
    | none => .ok t0

/-- Method `RoundRobinTechniqueSelectionStrategy.selectTechnique`: the
strategy's mutable `currentIndex` is passed and returned explicitly.  An
out-of-range index yields `undefined` (`none`); on an empty pool the
source throws before touching the index. -/
def roundRobinSelect (techniques : List Technique) (currentIndex : Nat) :
    Except SessionError (Option Technique × Nat) :=
  if techniques.length = 0 then .error .noTechniquesAvailable
  else .ok (techniques.get? currentIndex,
            (currentIndex + 1) % techniques.length)

/-- Runs `n` consecutive round-robin selections over a fixed pool,
threading the cursor; collects the returned techniques in order. -/
def roundRobinRun (techniques : List Technique) :
    Nat → Nat → List (Option Technique) × Nat
  | currentIndex, 0 => ([], currentIndex)
  | currentIndex, n + 1 =>
    match roundRobinSelect techniques currentIndex with
    | .error _ => ([], currentIndex)
    | .ok (t, nextIndex) =>
      let rest := roundRobinRun techniques nextIndex n
      (t :: rest.1, rest.2)

/-- Method `PriorityBasedTechniqueSelectionStrategy.selectRandomFromGroup`:
`techniques[Math.floor(rand * techniques.length)]`, `undefined` (`none`)
when the index misses the array. -/
def selectRandomFromGroup (techniques : List Technique) (rand : ℚ) :
    Option Technique :=
  let idx : Int := Int.floor (rand * (techniques.length : ℚ))
  if idx < 0 then none else techniques.get? idx.toNat

/-- Method `PriorityBasedTechniqueSelectionStrategy.selectTechnique`:
partitions the pool into the three priority labels and picks uniformly
from the highest non-empty bucket; when every bucket is empty the inner
pick indexes an empty array and the method returns `undefined` (`none`). -/
def selectTechniquePriority (techniques : List Technique) (rand : ℚ) :
    Except SessionError (Option Technique) :=
  if techniques.length = 0 then .error .noTechniquesAvailable
  else
    let highPriority := techniques.filter (·.priority = "high")
    let mediumPriority := techniques.filter (·.priority = "medium")
    let lowPriority := techniques.filter (·.priority = "low")
    if highPriority.length > 0 then .ok (selectRandomFromGroup highPriority rand)
    else if mediumPriority.length > 0 then
      .ok (selectRandomFromGroup mediumPriority rand)
    else .ok (selectRandomFromGroup lowPriority rand)

/-! ### Announcement loop (src/app.ts, startTechniqueAnnouncementLoop)

One wake-up of the self-rescheduling `announceNextTechnique` closure.
The audio collaborator's outcome is passed in as `audioSuccess`.  The
returned flag records whether the closure re-armed itself with
`setTimeout`.  The call
`this.sessionManager.incrementAudioFailureCount()` is commented out in
the source, so the failure branch leaves the counter untouched. -/

/-- One iteration of `announceNextTechnique` from
`startTechniqueAnnouncementLoop`. -/
def announceLoopIteration (s : SessionState) (audioSuccess : Bool) :
    SessionState × Bool :=
  if !s.isActive then (s, false)
  else
    match s.currentTechnique with
    | some _ =>
      if !audioSuccess then
        if shouldStopSessionDueToAudioFailures s then (stopSession s, false)
        else (s, s.isActive && !s.isPaused)
      else
        let s1 := resetAudioFailureCount s
        (s1, s1.isActive && !s1.isPaused)
    | none => (s, s.isActive && !s.isPaused)

/-- State after `n` consecutive loop iterations whose audio playback all
fail. -/
def announceLoopAllFail (s : SessionState) : Nat → SessionState
  | 0 => s
  | n + 1 => announceLoopAllFail (announceLoopIteration s false).1 n

/-! ### Event system over a SessionManager

Discrete events that can reach a live `SessionManager` after a session
has started: countdown interval ticks, the technique `setTimeout` firing
(only possible while armed — `clearTimeout` prevents a cancelled timeout
from ever running), and the control methods. -/

/-- Observable events of a running `SessionManager` (starting a new
session excluded: these drive one session's lifetime). -/
inductive SessionEvent where
  | tick (now : Int)
  | techniqueFire (config : SessionConfig)
  | pause
  | resume
  | stop
deriving Repr

/-- Small-step semantics of one event.  The technique `setTimeout`
callback clears the current technique and reschedules, and can only run
while its timer is armed. -/
def sessionStep (strat : List Technique → Option Technique)
    (s : SessionState) : SessionEvent → SessionState
  | .tick now => sessionTick s now
  | .techniqueFire config =>
    if s.techniqueTimer then
      scheduleNextTechnique strat config
        { s with techniqueTimer := false, currentTechnique := none }
    else s
  | .pause => pauseSession s
  | .resume => resumeSession s
  | .stop => stopSession s

/-- Folds a list of events over a state. -/
def sessionRun (strat : List Technique → Option Technique)
    (s : SessionState) (events : List SessionEvent) : SessionState :=
  events.foldl (sessionStep strat) s

/-! ### Concrete fixtures used by witnesses and counterexamples -/

/-- Sample technique. -/
def jabTechnique : Technique :=
  { name := "Jab", file := "jab.mp3", category := "Punches"
    priority := "high", selected := true, weight := 1 }

/-- Second sample technique. -/
def crossTechnique : Technique :=
  { name := "Cross", file := "cross.mp3", category := "Punches"
    priority := "medium", selected := true, weight := 2 }

/-- Third sample technique. -/
def kickTechnique : Technique :=
  { name := "FrontKick", file := "kick.mp3", category := "Kicks"
    priority := "low", selected := true, weight := 3 }

/-- Engine state before any session has run. -/
def idleState : SessionState :=
  { isActive := false, isPaused := false, sessionTimer := false
    techniqueTimer := false, remainingTime := 0, sessionDuration := 0
    currentTechnique := none, techniquesUsed := 0, currentFightList := none
    sessionStats := initialSessionStats, consecutiveAudioFailures := 0
    savedSnapshot := none, completionsFired := 0 }

/-- Deterministic strategy instance used for concrete evaluations. -/
def headStrategy : List Technique → Option Technique := List.head?

/-- Config whose selected pool is the one sample technique. -/
def demoConfig : SessionConfig :=
  { duration := 1, delay := 3, volume := 80, techniques := [jabTechnique] }

/-- Config whose pool, filtered to `selected`, is empty. -/
def emptyPoolConfig : SessionConfig :=
  { duration := 1, delay := 3, volume := 80
    techniques := [{ jabTechnique with selected := false }] }

/-- State right after a successful concrete `startSession`. -/
def startedDemoState : SessionState :=
  (startSessionM headStrategy idleState demoConfig 0).1

/-- Concrete active-and-running state used by witnesses. -/
def runningDemoState : SessionState :=
  { idleState with
    isActive := true, sessionTimer := true, remainingTime := 60
    sessionDuration := 60 }

/-- Concrete paused state (announcement timeout already cancelled by
`pauseSession`). -/
def pausedDemoState : SessionState :=
  { idleState with
    isActive := true, isPaused := true, remainingTime := 42
    sessionDuration := 60, techniquesUsed := 5 }

/-- Fresh (timestamp 0) snapshot whose `isActive` flag is false. -/
def inactiveSnapshot : SessionSnapshot :=
  { isActive := false, isPaused := false, remainingTime := 42
    sessionDuration := 60, techniquesUsed := 7
    sessionStats := initialSessionStats, currentFightList := none
    timestamp := 0 }

/-- Engine state holding the inactive snapshot. -/
def inactiveSnapshotState : SessionState :=
  { idleState with savedSnapshot := some inactiveSnapshot }

/-! ## Theorems -/

/-! ### C6 — start on an already-active session -/

/-- C6: whenever a session is already active, `startSession` throws
`AlreadyActiveError` (the `SESSION_ALREADY_ACTIVE` message) and the
`SessionManager` state is returned entirely unchanged — the throw happens
before any field is mutated. -/
theorem c6_start_already_active (strat : List Technique → Option Technique)
    (s : SessionState) (config : SessionConfig) (now : Int)
    (hA : s.isActive = true) :
    startSessionM strat s config now = (s, some .sessionAlreadyActive) := by
  simp [startSessionM, hA]

/-- Witness for C6 at a concrete active state. -/
theorem c6_start_already_active_witness :
    runningDemoState.isActive = true ∧
      startSessionM headStrategy runningDemoState demoConfig 0 =
        (runningDemoState, some .sessionAlreadyActive) :=
  ⟨rfl, c6_start_already_active headStrategy runningDemoState demoConfig 0 rfl⟩

/-! ### C9 — pause followed by resume is drift-free -/

/-- C9: for an active running session, pausing and then resuming leaves
the remaining time, the total duration, the whole statistics record and
the techniques-used counter exactly as they were, and returns the
session to the active unpaused state. -/
theorem c9_pause_resume_frame (s : SessionState)
    (hA : s.isActive = true) (hP : s.isPaused = false) :
    (resumeSession (pauseSession s)).remainingTime = s.remainingTime ∧
    (resumeSession (pauseSession s)).sessionDuration = s.sessionDuration ∧
    (resumeSession (pauseSession s)).sessionStats = s.sessionStats ∧
    (resumeSession (pauseSession s)).techniquesUsed = s.techniquesUsed ∧
    (resumeSession (pauseSession s)).isActive = true ∧
    (resumeSession (pauseSession s)).isPaused = false := by
  simp [pauseSession, resumeSession, hA, hP]

/-- Witness for C9 at a concrete running state. -/
theorem c9_pause_resume_frame_witness :
    runningDemoState.isActive = true ∧ runningDemoState.isPaused = false ∧
      (resumeSession (pauseSession runningDemoState)).remainingTime =
        runningDemoState.remainingTime ∧
      (resumeSession (pauseSession runningDemoState)).sessionStats =
        runningDemoState.sessionStats :=
  ⟨rfl, rfl,
    (c9_pause_resume_frame runningDemoState rfl rfl).1,
    (c9_pause_resume_frame runningDemoState rfl rfl).2.2.1⟩

/-! ### C2 — startSession does not re-validate pool emptiness -/

/-- C2 counterexample: at the concrete idle state and a config whose
pool filtered to `selected` is empty, `startSession` throws nothing at
all — in particular it does not fail with `NoSelectableTechniquesError`
as the claim demands. -/
theorem c2_counterexample :
    emptyPoolConfig.techniques.filter (·.selected) = [] ∧
      (startSessionM headStrategy idleState emptyPoolConfig 0).2 = none := by
  constructor <;> rfl

/-- C2 amended: emptiness of the selected pool is checked only by the
caller through the read-only `isReadyToStart` predicate (false exactly
on an empty filtered pool); `startSession` itself performs no
re-validation: on an idle engine it succeeds even with an empty filtered
pool, activating the session, arming no announcement timeout and
announcing no technique. -/
theorem c2_no_internal_revalidation
    (strat : List Technique → Option Technique) (s : SessionState)
    (config : SessionConfig) (now : Int)
    (hIdle : s.isActive = false) (hT : s.techniqueTimer = false)
    (hEmpty : config.techniques.filter (·.selected) = []) :
    isReadyToStart config = false ∧
    (startSessionM strat s config now).2 = none ∧
    (startSessionM strat s config now).1.isActive = true ∧
    (startSessionM strat s config now).1.techniqueTimer = false ∧
    (startSessionM strat s config now).1.techniquesUsed = 0 := by
  refine ⟨by simp [isReadyToStart, hEmpty], ?_⟩
  simp [startSessionM, hIdle, scheduleNextTechnique, hEmpty, hT,
    saveSessionState, resetAudioFailureCount, resetSessionStats]

/-- Witness for the amended C2 at the concrete empty-pool config. -/
theorem c2_no_internal_revalidation_witness :
    idleState.isActive = false ∧ idleState.techniqueTimer = false ∧
      emptyPoolConfig.techniques.filter (·.selected) = [] ∧
      isReadyToStart emptyPoolConfig = false ∧
      (startSessionM headStrategy idleState emptyPoolConfig 0).2 = none :=
  ⟨rfl, rfl, rfl,
    (c2_no_internal_revalidation headStrategy idleState emptyPoolConfig 0
      rfl rfl rfl).1,
    (c2_no_internal_revalidation headStrategy idleState emptyPoolConfig 0
      rfl rfl rfl).2.1⟩

/-! ### C4 — restore window ignores the snapshot's isActive flag -/

/-- C4 counterexample: a fresh snapshot whose `isActive` flag is false is
still restored — `loadSessionState` reports success and copies the
snapshot fields, while the claim requires restoration only when
`isActive` was true. -/
theorem c4_counterexample :
    (inactiveSnapshotState.savedSnapshot.map (·.isActive)) = some false ∧
      (loadSessionState inactiveSnapshotState 0).2 = true ∧
      (loadSessionState inactiveSnapshotState 0).1.remainingTime = 42 ∧
      (loadSessionState inactiveSnapshotState 0).1.techniquesUsed = 7 := by
  refine ⟨rfl, ?_, ?_, ?_⟩ <;>
    simp [loadSessionState, inactiveSnapshotState, inactiveSnapshot,
      SESSION_RESTORE_TIME_LIMIT, idleState]

/-- C4 amended: `loadSessionState` restores the in-memory state if and
only if a snapshot exists and the time since its saved timestamp is
strictly below the 5-minute limit — the snapshot's `isActive` flag is
not consulted; otherwise the state is returned unchanged and the restore
is reported as failed. -/
theorem c4_restore_window (s : SessionState) (now : Int) :
    ((loadSessionState s now).2 = true ↔
      ∃ st, s.savedSnapshot = some st ∧
        now - st.timestamp < SESSION_RESTORE_TIME_LIMIT) ∧
    ((loadSessionState s now).2 = false → (loadSessionState s now).1 = s) := by
  unfold loadSessionState
  cases h : s.savedSnapshot with
  | none => simp
  | some st =>
    by_cases hlt : now - st.timestamp < SESSION_RESTORE_TIME_LIMIT <;>
      simp [hlt]

/-! ### C3 — countdown tick semantics -/

/-- C3: while the countdown interval is armed, a tick with positive
remaining time decreases it by exactly one and triggers no completion;
a tick never drives the remaining time negative; and a tick at zero
fires the completion callback exactly once, records the final session
duration as total minus remaining, returns the engine to the inactive
state with the interval cancelled, and makes every further tick a
no-op. -/
theorem c3_countdown_tick (s : SessionState) (now nxt : Int)
    (hArmed : s.sessionTimer = true) :
    (0 < s.remainingTime →
      (sessionTick s now).remainingTime = s.remainingTime - 1 ∧
      (sessionTick s now).completionsFired = s.completionsFired) ∧
    (0 ≤ s.remainingTime → 0 ≤ (sessionTick s now).remainingTime) ∧
    (s.remainingTime = 0 →
      (sessionTick s now).completionsFired = s.completionsFired + 1 ∧
      (sessionTick s now).sessionStats.sessionDuration =
        s.sessionDuration - s.remainingTime ∧
      (sessionTick s now).isActive = false ∧
      (sessionTick s now).sessionTimer = false ∧
      sessionTick (sessionTick s now) nxt = sessionTick s now) := by
  refine ⟨fun hpos => ?_, fun hnn => ?_, fun hz => ?_⟩
  · simp only [sessionTick, hArmed, if_true, sessionTickBody, hpos]
    split <;> simp [saveSessionState]
  · rcases lt_or_eq_of_le hnn with hpos | hz
    · simp only [sessionTick, hArmed, if_true, sessionTickBody, hpos]
      split <;> simp [saveSessionState] <;> omega
    · simp only [sessionTick, hArmed, if_true, sessionTickBody, ← hz,
        lt_irrefl, if_false]
      simp [completeSession, stopSession, clearSessionState, ← hz]
  · have hcomplete : sessionTick s now = completeSession s := by
      simp [sessionTick, hArmed, sessionTickBody, hz]
    rw [hcomplete]
    refine ⟨?_, ?_, ?_, ?_, ?_⟩ <;>
      simp [completeSession, stopSession, clearSessionState, hz, sessionTick]

/-- Witness for C3 at a concrete armed state. -/
theorem c3_countdown_tick_witness :
    runningDemoState.sessionTimer = true ∧
      (0 < runningDemoState.remainingTime →
        (sessionTick runningDemoState 0).remainingTime =
          runningDemoState.remainingTime - 1 ∧
        (sessionTick runningDemoState 0).completionsFired =
          runningDemoState.completionsFired) :=
  ⟨rfl, (c3_countdown_tick runningDemoState 0 1 rfl).1⟩

/-! ### C1 — the three-failure stop never fires (code bug) -/

/-- C1 (divergence witness for the code bug): the source declares a
failure counter, a threshold of three and the stop check, but the only
call to `incrementAudioFailureCount` in the announcement loop is
commented out.  Hence from any active state whose counter is zero — as
every freshly started session is — any number of consecutive audio
playback failures leaves the state completely unchanged: after the
claimed three failures the session is still active, the counter still
zero, and no stop ever occurs. -/
theorem c1_audio_failures_never_stop (s : SessionState)
    (hA : s.isActive = true) (hC : s.consecutiveAudioFailures = 0) :
    (announceLoopAllFail s 3).isActive = true ∧
    (announceLoopAllFail s 3).consecutiveAudioFailures = 0 ∧
    ∀ n, announceLoopAllFail s n = s := by
  have hstep : (announceLoopIteration s false).1 = s := by
    simp only [announceLoopIteration, hA, Bool.not_true, Bool.false_eq_true,
      if_false, shouldStopSessionDueToAudioFailures, hC,
      MAX_CONSECUTIVE_AUDIO_FAILURES]
    cases s.currentTechnique <;> simp
  have hall : ∀ n, announceLoopAllFail s n = s := by
    intro n
    induction n with
    | zero => rfl
    | succ k ih =>
      have : announceLoopAllFail s (k + 1) =
          announceLoopAllFail ((announceLoopIteration s false).1) k := rfl
      rw [this, hstep, ih]
  exact ⟨by rw [hall 3]; exact hA, by rw [hall 3]; exact hC, hall⟩

/-- Witness for C1 at the concretely started demo session. -/
theorem c1_audio_failures_never_stop_witness :
    startedDemoState.isActive = true ∧
      startedDemoState.consecutiveAudioFailures = 0 ∧
      (announceLoopAllFail startedDemoState 3).isActive = true :=
  ⟨rfl, rfl,
    (c1_audio_failures_never_stop startedDemoState rfl rfl).1⟩

/-! ### C5 — resume re-arms only the countdown -/

/-- Helper: every post-start event preserves a disarmed announcement
timeout and never announces a technique while it is disarmed. -/
theorem sessionStep_keeps_techniqueTimer_disarmed
    (strat : List Technique → Option Technique) (s : SessionState)
    (e : SessionEvent) (hT : s.techniqueTimer = false) :
    (sessionStep strat s e).techniqueTimer = false ∧
    (sessionStep strat s e).techniquesUsed = s.techniquesUsed := by
  cases e with
  | tick now =>
    simp only [sessionStep, sessionTick]
    split
    · simp only [sessionTickBody]
      split
      · split <;> simp [saveSessionState, hT]
      · simp [completeSession, stopSession, clearSessionState]
    · exact ⟨hT, rfl⟩
  | techniqueFire config => simp [sessionStep, hT]
  | pause =>
    simp only [sessionStep, pauseSession]
    split
    · exact ⟨hT, rfl⟩
    · simp
  | resume =>
    simp only [sessionStep, resumeSession]
    split
    · exact ⟨hT, rfl⟩
    · simp [hT]
  | stop => simp [sessionStep, stopSession, clearSessionState]

/-- Helper: the disarmed-timeout invariant extends to whole event
traces. -/
theorem sessionRun_keeps_techniqueTimer_disarmed
    (strat : List Technique → Option Technique) (s : SessionState)
    (events : List SessionEvent) (hT : s.techniqueTimer = false) :
    (sessionRun strat s events).techniqueTimer = false ∧
    (sessionRun strat s events).techniquesUsed = s.techniquesUsed := by
  induction events generalizing s with
  | nil => exact ⟨hT, rfl⟩
  | cons e rest ih =>
    have hstep := sessionStep_keeps_techniqueTimer_disarmed strat s e hT
    have hrest := ih (sessionStep strat s e) hstep.1
    exact ⟨hrest.1, hrest.2.trans hstep.2⟩

/-- C5: resuming a paused session (whose announcement timeout was
cancelled by pause) re-arms only the countdown interval; the technique
timeout stays disarmed, and along every subsequent event trace of the
session it remains disarmed and the engine never announces another
technique — the techniques-used counter is frozen. -/
theorem c5_resume_never_announces_again
    (strat : List Technique → Option Technique) (s : SessionState)
    (events : List SessionEvent) (hA : s.isActive = true)
    (hP : s.isPaused = true) (hT : s.techniqueTimer = false) :
    (resumeSession s).sessionTimer = true ∧
    (resumeSession s).techniqueTimer = false ∧
    (sessionRun strat (resumeSession s) events).techniqueTimer = false ∧
    (sessionRun strat (resumeSession s) events).techniquesUsed =
      s.techniquesUsed := by
  have hres : resumeSession s =
      { s with isPaused := false, sessionTimer := true } := by
    simp [resumeSession, hA, hP]
  have hrun := sessionRun_keeps_techniqueTimer_disarmed strat
    (resumeSession s) events (by rw [hres]; exact hT)
  exact ⟨by rw [hres], by rw [hres]; exact hT, hrun.1, by rw [hrun.2, hres]⟩

/-- Witness for C5 at a concrete paused state and a concrete event
trace containing ticks, a (cancelled) timeout fire, a pause/resume pair
and more ticks. -/
theorem c5_resume_never_announces_again_witness :
    pausedDemoState.isActive = true ∧ pausedDemoState.isPaused = true ∧
      pausedDemoState.techniqueTimer = false ∧
      (sessionRun headStrategy (resumeSession pausedDemoState)
        [.tick 0, .techniqueFire demoConfig, .pause, .resume,
         .tick 1]).techniquesUsed = pausedDemoState.techniquesUsed :=
  ⟨rfl, rfl, rfl,
    (c5_resume_never_announces_again headStrategy pausedDemoState
      [.tick 0, .techniqueFire demoConfig, .pause, .resume, .tick 1]
      rfl rfl rfl).2.2.2⟩

/-! ### C7 — weighted-random selection -/

/-- Helper: the `reduce` accumulation of weights is the list sum. -/
theorem totalWeight_eq_sum (pool : List Technique) :
    totalWeight pool = (pool.map (·.weight)).sum := by
  suffices h : ∀ (l : List Technique) (a : ℚ),
      l.foldl (fun sum t => sum + t.weight) a = a + (l.map (·.weight)).sum by
    simpa using h pool 0
  intro l
  induction l with
  | nil => intro a; simp
  | cons t ts ih => intro a; simp [List.foldl_cons, ih, add_assoc]

/-- Helper: the subtraction walk only ever returns pool members. -/
theorem weightedPick_mem (r : ℚ) (pool : List Technique) (t : Technique)
    (h : weightedPick r pool = some t) : t ∈ pool := by
  induction pool generalizing r with
  | nil => simp [weightedPick] at h
  | cons t0 ts ih =>
    simp only [weightedPick] at h
    split at h
    · injection h with h
      subst h
      exact List.mem_cons_self _ _
    · exact List.mem_cons_of_mem _ (ih _ h)

/-- Helper: a strictly positive cursor never crosses zero over
non-positive weights. -/
theorem weightedPick_none_of_pos (r : ℚ) (pool : List Technique)
    (hr : 0 < r) (hw : ∀ t ∈ pool, t.weight ≤ 0) :
    weightedPick r pool = none := by
  induction pool generalizing r with
  | nil => rfl
  | cons t0 ts ih =>
    have h0 : t0.weight ≤ 0 := hw t0 (List.mem_cons_self _ _)
    have hpos : 0 < r - t0.weight := by linarith
    simp only [weightedPick, if_neg (not_le.mpr hpos)]
    exact ih _ hpos fun t ht => hw t (List.mem_cons_of_mem _ ht)

/-- Helper: non-positive weights sum to a non-positive total. -/
theorem sum_weights_nonpos (pool : List Technique)
    (hw : ∀ t ∈ pool, t.weight ≤ 0) : (pool.map (·.weight)).sum ≤ 0 := by
  induction pool with
  | nil => simp
  | cons t ts ih =>
    have h1 := hw t (List.mem_cons_self _ _)
    have h2 := ih fun u hu => hw u (List.mem_cons_of_mem _ hu)
    simp only [List.map_cons, List.sum_cons]
    linarith

/-- Helper: when the cursor eventually crosses (it does whenever
`r` is below the total weight), the walk returns exactly the first pool
element at which the cursor minus the running weight sum goes
non-positive. -/
theorem weightedPick_first_crossing (pool : List Technique) (r : ℚ)
    (hne : pool ≠ [])
    (hend : r - (pool.map (·.weight)).sum ≤ 0) :
    ∃ i, ∃ h : i < pool.length,
      weightedPick r pool = some (pool.get ⟨i, h⟩) ∧
      r - ((pool.take (i + 1)).map (·.weight)).sum ≤ 0 ∧
      ∀ j < i, 0 < r - ((pool.take (j + 1)).map (·.weight)).sum := by
  induction pool generalizing r with
  | nil => exact absurd rfl hne
  | cons t0 ts ih =>
    by_cases hc : r - t0.weight ≤ 0
    · refine ⟨0, by simp, ?_, by simpa using hc, ?_⟩
      · simp [weightedPick, hc]
      · intro j hj
        exact absurd hj (Nat.not_lt_zero j)
    · have hc' : 0 < r - t0.weight := lt_of_not_le hc
      have hsum : ((t0 :: ts).map (·.weight)).sum =
          t0.weight + (ts.map (·.weight)).sum := by simp
      have hts : ts ≠ [] := by
        rintro rfl
        rw [hsum] at hend
        simp at hend
        linarith
      have hend' : (r - t0.weight) - (ts.map (·.weight)).sum ≤ 0 := by
        rw [hsum] at hend
        linarith
      obtain ⟨i, hi, hpick, hcross, hmin⟩ := ih (r - t0.weight) hts hend'
      refine ⟨i + 1, Nat.succ_lt_succ hi, ?_, ?_, ?_⟩
      · simpa [weightedPick, hc] using hpick
      · simpa [List.take_cons, sub_sub] using hcross
      · intro j hj
        cases j with
        | zero => simpa using hc'
        | succ k =>
          have hk : k < i := Nat.lt_of_succ_lt_succ hj
          have := hmin k hk
          simpa [List.take_cons, sub_sub] using this

/-- C7: over any non-empty pool, the weighted-random strategy always
returns a pool member; for a drawn cursor in `[0, totalWeight)` it
returns precisely the first pool element at which the cursor minus the
running sum of weights (in pool order) becomes non-positive; and in the
degenerate case where every weight is non-positive it deterministically
falls back to the first pool element. -/
theorem c7_weighted_random (pool : List Technique) (rand : ℚ)
    (hne : pool ≠ []) :
    (∀ t, selectTechniqueRandom pool rand = .ok t → t ∈ pool) ∧
    (0 ≤ rand * totalWeight pool →
      rand * totalWeight pool < totalWeight pool →
      ∃ i, ∃ h : i < pool.length,
        selectTechniqueRandom pool rand = .ok (pool.get ⟨i, h⟩) ∧
        rand * totalWeight pool -
          ((pool.take (i + 1)).map (·.weight)).sum ≤ 0 ∧
        ∀ j < i, 0 < rand * totalWeight pool -
          ((pool.take (j + 1)).map (·.weight)).sum) ∧
    ((∀ t ∈ pool, t.weight ≤ 0) → 0 ≤ rand →
      selectTechniqueRandom pool rand = .ok (pool.head hne)) := by
  cases pool with
  | nil => exact absurd rfl hne
  | cons t0 ts =>
    refine ⟨?_, ?_, ?_⟩
    · intro t ht
      simp only [selectTechniqueRandom] at ht
      split at ht
      · injection ht with ht
        subst ht
        exact weightedPick_mem _ _ _ (by assumption)
      · injection ht with ht
        subst ht
        exact List.mem_cons_self _ _
    · intro _ hlt
      have hend : rand * totalWeight (t0 :: ts) -
          ((t0 :: ts).map (·.weight)).sum ≤ 0 := by
        rw [← totalWeight_eq_sum]
        linarith
      obtain ⟨i, hi, hpick, hcross, hmin⟩ :=
        weightedPick_first_crossing (t0 :: ts) (rand * totalWeight (t0 :: ts))
          hne hend
      exact ⟨i, hi, by simp [selectTechniqueRandom, hpick], hcross, hmin⟩
    · intro hw h0
      have htot : totalWeight (t0 :: ts) ≤ 0 := by
        rw [totalWeight_eq_sum]
        exact sum_weights_nonpos _ hw
      have hr : rand * totalWeight (t0 :: ts) ≤ 0 := by
        calc rand * totalWeight (t0 :: ts) ≤ rand * 0 :=
              mul_le_mul_of_nonneg_left htot h0
          _ = 0 := mul_zero rand
      by_cases hc : rand * totalWeight (t0 :: ts) - t0.weight ≤ 0
      · simp [selectTechniqueRandom, weightedPick, hc]
      · have hc' : 0 < rand * totalWeight (t0 :: ts) - t0.weight :=
          lt_of_not_le hc
        have hnone := weightedPick_none_of_pos
          (rand * totalWeight (t0 :: ts) - t0.weight) ts hc'
          fun t ht => hw t (List.mem_cons_of_mem _ ht)
        simp [selectTechniqueRandom, weightedPick, hc, hnone]

/-- Witness for C7 at a concrete two-element pool and cursor draw. -/
theorem c7_weighted_random_witness :
    ([jabTechnique, crossTechnique] ≠ ([] : List Technique)) ∧
      ∀ t, selectTechniqueRandom [jabTechnique, crossTechnique] (1 / 2) =
          .ok t → t ∈ [jabTechnique, crossTechnique] :=
  ⟨List.cons_ne_nil _ _,
    (c7_weighted_random [jabTechnique, crossTechnique] (1 / 2)
      (List.cons_ne_nil _ _)).1⟩

/-! ### C8 — priority-based selection can index out of bounds -/

/-- Helper: the uniform pick from a non-empty bucket returns one of its
members whenever the random draw is in `[0, 1)`. -/
theorem selectRandomFromGroup_mem_of_ne_nil (group : List Technique)
    (rand : ℚ) (hne : group ≠ []) (h0 : 0 ≤ rand) (h1 : rand < 1) :
    ∃ t, selectRandomFromGroup group rand = some t ∧ t ∈ group := by
  have hlen : 0 < group.length := List.length_pos.mpr hne
  have hlenq : (0 : ℚ) < (group.length : ℚ) := by exact_mod_cast hlen
  have hnn : (0 : ℚ) ≤ rand * (group.length : ℚ) :=
    mul_nonneg h0 (le_of_lt hlenq)
  have hidx0 : 0 ≤ Int.floor (rand * (group.length : ℚ)) :=
    Int.le_floor.mpr (by exact_mod_cast hnn)
  have hlt : rand * (group.length : ℚ) < (group.length : ℚ) := by
    calc rand * (group.length : ℚ) < 1 * (group.length : ℚ) :=
          mul_lt_mul_of_pos_right h1 hlenq
      _ = (group.length : ℚ) := one_mul _
  have hidxlt : Int.floor (rand * (group.length : ℚ)) <
      (group.length : Int) := Int.floor_lt.mpr (by exact_mod_cast hlt)
  have hnatlt : (Int.floor (rand * (group.length : ℚ))).toNat <
      group.length := by omega
  refine ⟨group.get ⟨(Int.floor (rand * (group.length : ℚ))).toNat, hnatlt⟩,
    ?_, List.get_mem _ _ _⟩
  simp only [selectRandomFromGroup]
  rw [if_neg (not_lt.mpr hidx0)]
  exact List.get?_eq_get hnatlt

/-- Pool whose single technique carries none of the three recognized
priority labels (such data reaches the engine through unvalidated
`localStorage` / JSON import). -/
def unlabeledPool : List Technique :=
  [{ name := "Mystery", file := "m.mp3", category := "Punches"
     priority := "urgent", selected := true, weight := 1 }]

/-- C8: the priority strategy buckets the pool into exactly the labels
high, medium and low.  On the concrete non-empty pool whose technique
carries none of those labels every bucket is empty and the method
indexes an empty array, returning `undefined` (`none`) — not a pool
member — for every random draw; whereas whenever at least one technique
carries a recognized label, the result is guaranteed to be a pool
member. -/
theorem c8_priority_out_of_bounds (pool : List Technique) (rand : ℚ)
    (h0 : 0 ≤ rand) (h1 : rand < 1) :
    (unlabeledPool ≠ [] ∧
      (∀ t ∈ unlabeledPool, t.priority ≠ "high" ∧
        t.priority ≠ "medium" ∧ t.priority ≠ "low") ∧
      ∀ r : ℚ, selectTechniquePriority unlabeledPool r = .ok none) ∧
    ((∃ t ∈ pool, t.priority = "high" ∨ t.priority = "medium" ∨
        t.priority = "low") →
      ∃ u, selectTechniquePriority pool rand = .ok (some u) ∧ u ∈ pool) := by
  constructor
  · refine ⟨List.cons_ne_nil _ _, by simp [unlabeledPool], ?_⟩
    intro r
    simp [selectTechniquePriority, unlabeledPool, selectRandomFromGroup]
  · rintro ⟨t, htmem, hl⟩
    have hne : pool ≠ [] := List.ne_nil_of_mem htmem
    have hlen0 : ¬ pool.length = 0 := by
      simpa [List.length_eq_zero] using hne
    simp only [selectTechniquePriority]
    rw [if_neg hlen0]
    by_cases hh : (pool.filter (·.priority = "high")).length > 0
    · obtain ⟨u, hu, humem⟩ := selectRandomFromGroup_mem_of_ne_nil
        (pool.filter (·.priority = "high")) rand
        (List.length_pos.mp hh) h0 h1
      rw [if_pos hh]
      exact ⟨u, by rw [hu], List.mem_of_mem_filter humem⟩
    · rw [if_neg hh]
      by_cases hm : (pool.filter (·.priority = "medium")).length > 0
      · obtain ⟨u, hu, humem⟩ := selectRandomFromGroup_mem_of_ne_nil
          (pool.filter (·.priority = "medium")) rand
          (List.length_pos.mp hm) h0 h1
        rw [if_pos hm]
        exact ⟨u, by rw [hu], List.mem_of_mem_filter humem⟩
      · have hlow : t ∈ pool.filter (·.priority = "low") := by
          rcases hl with h | h | h
          · exact absurd (List.length_pos.mpr (List.ne_nil_of_mem
              (List.mem_filter.mpr ⟨htmem, by simp [h]⟩))) hh
          · exact absurd (List.length_pos.mpr (List.ne_nil_of_mem
              (List.mem_filter.mpr ⟨htmem, by simp [h]⟩))) hm
          · exact List.mem_filter.mpr ⟨htmem, by simp [h]⟩
        obtain ⟨u, hu, humem⟩ := selectRandomFromGroup_mem_of_ne_nil
          (pool.filter (·.priority = "low")) rand
          (List.ne_nil_of_mem hlow) h0 h1
        rw [if_neg hm]
        exact ⟨u, by rw [hu], List.mem_of_mem_filter humem⟩

/-- Witness for C8 at a concrete labelled pool and draw. -/
theorem c8_priority_out_of_bounds_witness :
    (0 : ℚ) ≤ 1 / 2 ∧ (1 / 2 : ℚ) < 1 ∧
      (∀ r : ℚ, selectTechniquePriority unlabeledPool r = .ok none) ∧
      ((∃ t ∈ [jabTechnique], t.priority = "high" ∨
          t.priority = "medium" ∨ t.priority = "low") →
        ∃ u, selectTechniquePriority [jabTechnique] (1 / 2) = .ok (some u) ∧
          u ∈ [jabTechnique]) :=
  ⟨by norm_num, by norm_num,
    (c8_priority_out_of_bounds [jabTechnique] (1 / 2) (by norm_num)
      (by norm_num)).1.2.2,
    (c8_priority_out_of_bounds [jabTechnique] (1 / 2) (by norm_num)
      (by norm_num)).2⟩

/-! ### C10 — round-robin visits every technique once per cycle -/

/-- Helper: over an empty pool every round-robin run throws immediately
and leaves the cursor alone. -/
theorem roundRobinRun_nil (pool : List Technique) (hp : pool.length = 0)
    (c n : Nat) : roundRobinRun pool c n = ([], c) := by
  cases n <;> simp [roundRobinRun, roundRobinSelect, hp]

/-- Helper: consecutive round-robin calls compose by appending their
outputs and threading the cursor. -/
theorem roundRobinRun_add (pool : List Technique) (m n c : Nat) :
    roundRobinRun pool c (m + n) =
      ((roundRobinRun pool c m).1 ++
        (roundRobinRun pool (roundRobinRun pool c m).2 n).1,
       (roundRobinRun pool (roundRobinRun pool c m).2 n).2) := by
  by_cases hp : pool.length = 0
  · simp [roundRobinRun_nil pool hp]
  · induction m generalizing c with
    | zero => simp [roundRobinRun]
    | succ k ih =>
      have hadd : k + 1 + n = (k + n) + 1 := by omega
      rw [hadd]
      simp only [roundRobinRun, roundRobinSelect, hp, if_false]
      simp [ih]

/-- Helper: a run that stays inside the pool bounds reads off a
contiguous segment, the cursor moving to `(i + n) % length`. -/
theorem roundRobinRun_segment (pool : List Technique) :
    ∀ (n i : Nat), i < pool.length → i + n ≤ pool.length →
      roundRobinRun pool i n =
        (((pool.drop i).take n).map some, (i + n) % pool.length) := by
  intro n
  induction n with
  | zero =>
    intro i hi _
    simp [roundRobinRun, Nat.mod_eq_of_lt hi]
  | succ k ih =>
    intro i hi hik
    have hp : ¬ pool.length = 0 := by omega
    have hget : pool.get? i = some pool[i] := by
      rw [List.get?_eq_getElem?, List.getElem?_eq_getElem hi]
    have him : i < (pool.map some).length := by simpa using hi
    have hmdrop : (pool.map some).drop i =
        some pool[i] :: (pool.map some).drop (i + 1) := by
      rw [List.drop_eq_getElem_cons him]
      simp
    by_cases hend : i + 1 = pool.length
    · have hk : k = 0 := by omega
      subst hk
      simp only [roundRobinRun, roundRobinSelect, hp, if_false, hget]
      simp only [List.map_take, List.map_drop]
      rw [hmdrop]
      simp
    · have hi1 : i + 1 < pool.length := by omega
      have hnext : (i + 1) % pool.length = i + 1 := Nat.mod_eq_of_lt hi1
      have hrest := ih (i + 1) hi1 (by omega)
      have hcur : i + 1 + k = i + (k + 1) := by omega
      simp only [roundRobinRun, roundRobinSelect, hp, if_false, hget,
        hnext, hrest, hcur]
      simp only [List.map_take, List.map_drop]
      rw [hmdrop, List.take_succ_cons]

/-- C10: starting from any in-range cursor over a non-empty pool of
size K, K consecutive round-robin selections return each pool technique
exactly once (the outputs are a permutation of the pool), the cursor
returns to its starting value after the cycle, and each single call
advances the cursor modulo K. -/
theorem c10_round_robin_cycle (pool : List Technique) (i : Nat)
    (hne : pool ≠ []) (hi : i < pool.length) :
    (roundRobinRun pool i pool.length).1.length = pool.length ∧
    (roundRobinRun pool i pool.length).1.Perm (pool.map some) ∧
    (roundRobinRun pool i pool.length).2 = i ∧
    roundRobinSelect pool i = .ok (pool.get? i, (i + 1) % pool.length) := by
  have hlen0 : ¬ pool.length = 0 := by
    simpa [List.length_eq_zero] using hne
  have hsplit : pool.length = (pool.length - i) + i := by omega
  have hseg1 := roundRobinRun_segment pool (pool.length - i) i hi (by omega)
  have hfull : i + (pool.length - i) = pool.length := by omega
  have hdropall : (pool.drop i).take (pool.length - i) = pool.drop i := by
    apply List.take_of_length_le
    simp [List.length_drop]
  rw [hfull, Nat.mod_self, hdropall] at hseg1
  have hseg2 := roundRobinRun_segment pool i 0 (by omega) (by omega)
  rw [Nat.zero_add, Nat.mod_eq_of_lt hi, List.drop_zero] at hseg2
  have hadd := roundRobinRun_add pool (pool.length - i) i i
  rw [hseg1] at hadd
  simp only at hadd
  rw [hseg2] at hadd
  have hrun : roundRobinRun pool i pool.length =
      ((pool.drop i).map some ++ (pool.take i).map some, i) := by
    rw [hsplit]
    exact hadd
  refine ⟨?_, ?_, ?_, ?_⟩
  · rw [hrun]
    simp [List.length_drop, List.length_take]
    omega
  · rw [hrun]
    have hperm : (pool.drop i ++ pool.take i).Perm pool := by
      calc (pool.drop i ++ pool.take i).Perm
            (pool.take i ++ pool.drop i) := List.perm_append_comm
        _ = pool := List.take_append_drop i pool
    simpa [List.map_append] using hperm.map some
  · rw [hrun]
  · simp [roundRobinSelect, hlen0]

/-- Witness for C10 at a concrete three-element pool and cursor 1. -/
theorem c10_round_robin_cycle_witness :
    ([jabTechnique, crossTechnique, kickTechnique] ≠
        ([] : List Technique)) ∧
      1 < ([jabTechnique, crossTechnique, kickTechnique] : List _).length ∧
      (roundRobinRun [jabTechnique, crossTechnique, kickTechnique] 1
        ([jabTechnique, crossTechnique, kickTechnique] : List _).length).1.Perm
        (([jabTechnique, crossTechnique, kickTechnique] : List _).map some) :=
  ⟨List.cons_ne_nil _ _, by simp,
    (c10_round_robin_cycle [jabTechnique, crossTechnique, kickTechnique] 1
      (List.cons_ne_nil _ _) (by simp)).2.1⟩

end ShadowFight
